import Mathlib

/-
Verification of the tunableX registration-and-resolution engine.

Shallow embedding of:
  src/src/tunablex/decorators.py   (the tunable decorator, namespace inference,
                                    nested-section resolution, the call-time wrapper)
  src/src/tunablex/parameters.py   (field collection and namespace computation for
                                    TunableParameters class hierarchies)

Python objects that matter to the claims are modelled by Obj: an atom carries an
object identity (id) and whether it exposes a __self__ attribute (bound methods /
descriptors); a node models an object with named attributes (a Pydantic model or,
at the data level, a mapping - model_dump of a model and a plain dict expose the
same items view).  Python None is modelled by Option.none wherever the source
treats None as a sentinel (getattr defaults, class-dict values); inspect._empty
(a parameter with no default) is modelled by Option.none on Param.default.

The registry (src/src/tunablex/registry.py) and the active-context slot
(src/src/tunablex/context.py) are not under src/; where needed they are modelled
from the spec (see the doc comments on combined_params and wrapper).
-/

namespace TunableX

/-- Python str.split(".") with a one-character separator, on the character list:
each dot starts a new part, so the empty string yields [""], "a.b" yields
["a", "b"] and a trailing dot yields a trailing empty part.  (Lean's own
String.splitOn has the same semantics but is defined by well-founded recursion
and does not evaluate inside the kernel, so the claims use this structural
equivalent.) -/
def pySplitDotAux : List Char → List (List Char)
  | [] => [[]]
  | c :: rest =>
    let parts := pySplitDotAux rest
    if c == ('.') then [] :: parts
    else
      match parts with
      | cur :: more => (c :: cur) :: more
      | [] => [[c]]

/-- Python dotted_ns.split("."). -/
def pySplitDot (s : String) : List String := (pySplitDotAux s.data).map String.mk

/-- Python str.lower() on the ASCII range, the only characters class names use. -/
def pyLowerChar (c : Char) : Char :=
  if (('A') ≤ c && c ≤ ('Z')) then Char.ofNat (c.toNat + 32) else c

/-- Python class_name.lower(). -/
def pyLower (s : String) : String := String.mk (s.data.map pyLowerChar)

/-- Python name.startswith("_"). -/
def startsWithUnderscoreName (s : String) : Bool :=
  match s.data with
  | [] => false
  | c :: _ => c == ('_')

/-- Python ".".join(parts) for a non-empty parts list (and "" on the empty one). -/
def joinDot : List String → String
  | [] => ("")
  | [x] => x
  | x :: xs => x ++ (".") ++ joinDot xs

/-- A Python object.  An atom is a leaf object with an identity tag: two atoms with
the same id denote the same Python object (the `is` operator compares ids); hasSelf
records whether the object exposes a __self__ attribute (decorators.py line 44).
A node is an object with named attributes in declaration order (a Pydantic model
section or a mapping). -/
inductive Obj where
  | atom (id : Nat) (hasSelf : Bool)
  | node (entries : List (String × Obj))

/-- Python identity (the `is` operator).  Atoms with equal id are the same object.
Container objects never arise as stored field defaults in the claims, so the model
conservatively treats nodes as never identity-equal. -/
def pyIs (a b : Obj) : Bool :=
  match a, b with
  | Obj.atom i _, Obj.atom j _ => i == j
  | _, _ => false

/-- hasattr(obj, "__self__") of decorators.py line 44: only atoms flagged hasSelf
(bound methods / descriptors) expose it. -/
def objHasSelf (o : Obj) : Bool :=
  match o with
  | Obj.atom _ s => s
  | Obj.node _ => false

/-- Lookup in a Python dict / attribute table modelled as an association list. -/
def dictGet {α : Type} : List (String × α) → String → Option α
  | [], _ => none
  | p :: rest, k => if p.1 == k then some p.2 else dictGet rest k

/-- Python dict assignment d[k] = v: update in place when the key exists
(preserving insertion order), else append. -/
def dictInsert {α : Type} (d : List (String × α)) (k : String) (v : α) : List (String × α) :=
  if d.any (fun p => p.1 == k) then d.map (fun p => if p.1 == k then (k, v) else p)
  else d ++ [(k, v)]

/-- Building the keyword arguments of a Python call fn(*args, **a, **b): a key
present in both mappings raises TypeError before fn runs. -/
def mergeKw (a b : List (String × Obj)) : Except String (List (String × Obj)) :=
  if a.any (fun p => b.any (fun q => q.1 == p.1)) then
    Except.error ("TypeError: got multiple values for keyword argument")
  else Except.ok (a ++ b)

/-- data = section if isinstance(section, dict) else section.model_dump()
(decorators.py lines 184, 199, 207): a mapping or model yields its items; any
other object raises AttributeError on .model_dump(). -/
def objItems (o : Obj) : Except String (List (String × Obj)) :=
  match o with
  | Obj.node es => Except.ok es
  | Obj.atom _ _ => Except.error ("AttributeError: model_dump")

/-- inspect.Parameter.kind. -/
inductive PKind where
  | posOnly
  | posOrKw
  | kwOnly
  | varPos
  | varKw

/-- p.kind in (p.VAR_POSITIONAL, p.VAR_KEYWORD) - decorators.py lines 102, 122, 154. -/
def isVariadic (k : PKind) : Bool :=
  match k with
  | PKind.varPos => true
  | PKind.varKw => true
  | _ => false

/-- One parameter of an inspected signature.  default none models inspect._empty
(no declared default); type annotations play no role in any claim and are omitted. -/
structure Param where
  name : String
  kind : PKind
  default : Option Obj

/-- The mode argument of the tunable decorator (a Literal string in the source). -/
inductive Mode where
  | includeMode
  | excludeMode

/-- The selection test of decorators.py lines 104-109 (repeated verbatim at
124-129 and 156-161), applied after the variadic skip. -/
def tunableSelected (includeList : List String) (mode : Mode) (excludeList : List String)
    (p : Param) : Bool :=
  if !includeList.isEmpty then
    includeList.contains p.name
  else if (match mode with | Mode.excludeMode => true | Mode.includeMode => false)
          && !excludeList.isEmpty then
    p.default.isSome && !(excludeList.contains p.name)
  else
    p.default.isSome

/-- A parameter survives both continue-guards of the decorator's selection loop:
it is not variadic and the selection test accepts it. -/
def tunableSelects (includeList : List String) (mode : Mode) (excludeList : List String)
    (p : Param) : Bool :=
  !(isVariadic p.kind) && tunableSelected includeList mode excludeList p

/-- A registered TunableParameters subclass as the decorator sees it: its computed
namespace (parameters.py stores it as _tunablex_namespace) and its non-underscore
class attributes after _setup_class_attribute_access replaced Field objects with
plain default values.  dir() also reports metaclass attributes such as mro, but
those are bound fresh on every access and can never be identity-equal to a stored
default, so only the field attributes are listed. -/
structure ParamClass where
  ns : String
  attrs : List (String × Obj)

/-- One value of fn.__globals__: either a proper TunableParameters subclass or any
other object (skipped by the isinstance/issubclass test of decorators.py 51-55). -/
inductive GlobalVal where
  | paramClass (c : ParamClass)
  | otherVal

/-- The inner scan of decorators.py lines 58-66: some non-underscore attribute of
the class is identity-equal (`is`) to the default value. -/
def classMatches (d : Obj) (c : ParamClass) : Bool :=
  c.attrs.any (fun a => !(startsWithUnderscoreName a.1) && pyIs a.2 d)

/-- All parameter classes among the function's globals whose stored defaults
identity-match d, in iteration order. -/
def matchingClasses (fn_globals : List GlobalVal) (d : Obj) : List ParamClass :=
  fn_globals.filterMap (fun g =>
    match g with
    | GlobalVal.paramClass c => if classMatches d c then some c else none
    | GlobalVal.otherVal => none)

/-- decorators.py lines 34-68.  default_value none models inspect._empty, which is
never identity-equal to a class attribute.  A default exposing __self__ returns
None immediately (lines 44-46).  Otherwise the function's globals are scanned and
the first class owning an identity-equal non-underscore attribute supplies its
namespace; the fold keeps the first hit, mirroring the early return. -/
def _infer_namespace_from_class_attribute (default_value : Option Obj)
    (fn_globals : List GlobalVal) : Option String :=
  match default_value with
  | none => none
  | some d =>
    if objHasSelf d then none
    else
      fn_globals.foldl
        (fun found g =>
          match found with
          | some ns => some ns
          | none =>
            match g with
            | GlobalVal.paramClass c => if classMatches d c then some c.ns else none
            | GlobalVal.otherVal => none)
        none

/-- The namespace the decorator assigns to one parameter (decorators.py line 134):
the inferred namespace, or the root namespace when inference found nothing. -/
def paramNs (default_value : Option Obj) (fn_globals : List GlobalVal) : String :=
  (_infer_namespace_from_class_attribute default_value fn_globals).getD ("")

/-- namespace_groups[param_ns][name] = (ann, default) with the group dict created
on first use (decorators.py lines 136-141). -/
def groupAdd (gs : List (String × List (String × Option Obj))) (ns : String)
    (name : String) (d : Option Obj) : List (String × List (String × Option Obj)) :=
  match dictGet gs ns with
  | some flds => dictInsert gs ns (dictInsert flds name d)
  | none => gs ++ [(ns, [(name, d)])]

/-- The grouping loop of decorators.py lines 119-141: walk the signature in order,
skip variadics and unselected parameters, infer each survivor's namespace and file
its (name, default) under that group.  The stored default is the parameter's own
default, with none standing for Ellipsis (required) exactly when the parameter has
no default. -/
def tunableNamespaceGroups (includeList : List String) (mode : Mode)
    (excludeList : List String) (fn_globals : List GlobalVal) (sig : List Param) :
    List (String × List (String × Option Obj)) :=
  sig.foldl
    (fun gs p =>
      if isVariadic p.kind then gs
      else if !(tunableSelected includeList mode excludeList p) then gs
      else groupAdd gs (paramNs p.default fn_globals) p.name p.default)
    []

/-- One registration unit (registry.TunableEntry as used by decorators.py): the
owning function's identity, the namespace, the schema fields (name to default,
none = required) and the app tags.  The Pydantic model object built by
create_model carries exactly these fields and is not modelled further. -/
structure TunableEntry where
  fn : Nat
  ns : String
  fields : List (String × Option Obj)
  apps : List String

/-- Decoration-time registration, decorators.py lines 117-171.  With no explicit
namespace the selected parameters are grouped by inferred namespace and one entry
is registered per non-empty group, in group-creation order (lines 144-148); with
an explicit namespace a single entry under it is registered unconditionally
(lines 153-171). -/
def tunableRegister (includeList : List String) (mode : Mode) (excludeList : List String)
    (nsOpt : Option String) (apps : List String) (fnId : Nat) (sig : List Param)
    (fn_globals : List GlobalVal) : List TunableEntry :=
  match nsOpt with
  | none =>
    (tunableNamespaceGroups includeList mode excludeList fn_globals sig).filterMap
      (fun g => if g.2.isEmpty then none else some ⟨fnId, g.1, g.2, apps⟩)
  | some ns =>
    [⟨fnId, ns,
      sig.foldl
        (fun fs p =>
          if isVariadic p.kind then fs
          else if !(tunableSelected includeList mode excludeList p) then fs
          else dictInsert fs p.name p.default)
        [],
      apps⟩]

/-- decorators.py lines 173-179: step into each dot-separated segment of the
namespace; in our model hasattr succeeds exactly when the segment names an
attribute of the current node, and getattr returns it.  Note that pySplitDot,
like Python str.split, sends the empty string to [""]. -/
def _resolve_nested_section (cfg_model : Obj) (dotted_ns : String) : Option Obj :=
  (pySplitDot dotted_ns).foldl
    (fun obj seg =>
      match obj with
      | none => none
      | some o =>
        match o with
        | Obj.node es => dictGet es seg
        | Obj.atom _ _ => none)
    (some cfg_model)

/-- A namespace contributes nothing to the call-time merge against configuration
A: it either does not resolve, or resolves to a section none of whose keys names
a parameter of the function. -/
def sectionContributesNothing (sig : List Param) (A : Obj) (ns : String) : Bool :=
  match _resolve_nested_section A ns with
  | none => true
  | some sect =>
    match sect with
    | Obj.node d => d.all (fun kv => !(sig.any (fun q => q.name == kv.1)))
    | Obj.atom _ _ => false

/-- A namespace resolves safely against configuration A: it is either absent
(resolution finds nothing) or resolves to a mapping/model section, the only
shapes on which the item extraction of the call-time merge cannot raise. -/
def sectionResolvesSafely (A : Obj) (ns : String) : Bool :=
  match _resolve_nested_section A ns with
  | none => true
  | some sect =>
    match sect with
    | Obj.node _ => true
    | Obj.atom _ _ => false

/-- The item-merge shared by all three call-time branches (decorators.py lines
185, 200-202, 208-210): keep the keys that are parameter names of the function,
assign them into the accumulated mapping (later assignments overwriting). -/
def mergeSectionData (sig : List Param) (data : List (String × Obj))
    (m : List (String × Obj)) : List (String × Obj) :=
  match data with
  | [] => m
  | kv :: rest =>
    mergeSectionData sig rest
      (if sig.any (fun q => q.name == kv.1) then dictInsert m kv.1 kv.2 else m)

/-- The multi-namespace collection loop of decorators.py lines 195-202.
Modelled from the spec: registry.py is not under src/; per spec sections 3 and 4.2
the registry is an append-only collection of entries indexed by namespace, and
iterating REGISTRY.by_namespace.values() enumerates the registered entries, here
the list of entries in registration order.  For each entry owned by this function
the entry's namespace is resolved; a resolved section's items are filtered against
the function's parameter names and merged, later entries winning on collision. -/
def combined_entry_step (sig : List Param) (fnId : Nat) (app_cfg : Obj)
    (acc : Except String (List (String × Obj))) (e : TunableEntry) :
    Except String (List (String × Obj)) :=
  match acc with
  | Except.error err => Except.error err
  | Except.ok m =>
    if e.fn == fnId then
      match _resolve_nested_section app_cfg e.ns with
      | none => Except.ok m
      | some sect =>
        match objItems sect with
        | Except.error err => Except.error err
        | Except.ok data => Except.ok (mergeSectionData sig data m)
    else Except.ok m

/-- See combined_entry_step: the whole loop, folded over the registered entries
in registration order starting from the empty mapping. -/
def combined_params (sig : List Param) (fnId : Nat) (entries : List TunableEntry)
    (app_cfg : Obj) : Except String (List (String × Obj)) :=
  entries.foldl (combined_entry_step sig fnId app_cfg) (Except.ok [])

/-- The single-namespace collection of decorators.py lines 204-210. -/
def single_namespace_params (sig : List Param) (app_cfg : Obj) (ns : String) :
    Except String (List (String × Obj)) :=
  match _resolve_nested_section app_cfg ns with
  | none => Except.ok []
  | some sect =>
    match objItems sect with
    | Except.error err => Except.error err
    | Except.ok data => Except.ok (mergeSectionData sig data [])

/-- The invocation of the original function: the positional arguments and the
fully merged keyword arguments it receives. -/
structure Call where
  args : List Obj
  kwargs : List (String × Obj)

/-- The explicit-override branch of the wrapper, decorators.py lines 183-186:
dump the override, keep the keys that are parameter names of the function (all of
them, not only the selected ones), and call fn(*args, **filtered, **kwargs). -/
def cfg_override_branch (sig : List Param) (c : Obj) (args : List Obj)
    (kwargs : List (String × Obj)) : Except String Call :=
  match objItems c with
  | Except.error err => Except.error err
  | Except.ok data =>
    match mergeKw (mergeSectionData sig data []) kwargs with
    | Except.error err => Except.error err
    | Except.ok kw => Except.ok ⟨args, kw⟩

/-- The wrapper of decorators.py lines 181-215.  cfg is the explicit override
keyword; active models _active_cfg.get() (context.py is not under src/; per spec
section 4.4 the active-context slot exposes the current configuration object or
absence).  With an override the active context is never consulted; otherwise the
entries owned by the function (or the single explicit namespace) are resolved and
merged, and fn is invoked with the combined keys under *args and **kwargs only
when the merge produced something. -/
def wrapper (sig : List Param) (nsOpt : Option String) (fnId : Nat)
    (entries : List TunableEntry) (cfg : Option Obj) (active : Option Obj)
    (args : List Obj) (kwargs : List (String × Obj)) : Except String Call :=
  match cfg with
  | some c => cfg_override_branch sig c args kwargs
  | none =>
    match active with
    | none => Except.ok ⟨args, kwargs⟩
    | some app_cfg =>
      match (match nsOpt with
             | none => combined_params sig fnId entries app_cfg
             | some ns => single_namespace_params sig app_cfg ns) with
      | Except.error err => Except.error err
      | Except.ok combined =>
        if combined.isEmpty then Except.ok ⟨args, kwargs⟩
        else
          match mergeKw combined kwargs with
          | Except.error err => Except.error err
          | Except.ok kw => Except.ok ⟨args, kw⟩

/-- One level of a TunableParameters inheritance chain below the root marker: the
class name, the names annotated at this level (__annotations__, unique in Python)
and the class __dict__ assignments, where a stored Option.none models an
attribute whose value is Python None. -/
structure ClassLevel where
  name : String
  anns : List String
  vals : List (String × Option Obj)

/-- getattr(base, name, None) where base is the class whose MRO below the root
marker is the given chain, most specific first: the first level whose __dict__
binds the name supplies the value; absence and a stored None both yield None. -/
def getattrOr : List ClassLevel → String → Option Obj
  | [], _ => none
  | lvl :: rest, f =>
    match dictGet lvl.vals f with
    | some v => v
    | none => getattrOr rest f

/-- The inner loop of parameters.py lines 79-86 for one MRO level: walk the
level's annotated names, skip underscore names, skip names whose class-level
value resolves to None, otherwise overwrite the collected binding. -/
def processLevelAnns (chain : List ClassLevel) : List String → List (String × Obj) →
    List (String × Obj)
  | [], acc => acc
  | nm :: rest, acc =>
    processLevelAnns chain rest
      (if startsWithUnderscoreName nm then acc
       else
         match getattrOr chain nm with
         | none => acc
         | some v => dictInsert acc nm v)

/-- parameters.py lines 67-88: walk reversed(cls.__mro__) - most general level
first - carrying one dict.  Processing the chain's suffixes from most general to
most specific is exactly this recursion: the tail's collection happens first,
then the head level's annotations are merged over it.  The collected dict can
only hold non-None values by construction. -/
def _collect_fields_from_class : List ClassLevel → List (String × Obj)
  | [] => []
  | lvl :: rest => processLevelAnns (lvl :: rest) lvl.anns (_collect_fields_from_class rest)

/-- parameters.py lines 91-120: the MRO names below the root marker (most
specific first) are reversed to general-to-specific order, every name equal to
"main" case-insensitively is dropped, the rest are lower-cased and joined with
dots, the empty list yielding the root namespace. -/
def _calculate_namespace_from_class (mroNames : List String) : String :=
  let hierarchy := mroNames.reverse
  let namespace_parts :=
    hierarchy.foldl
      (fun parts n => if pyLower n == ("main") then parts else parts ++ [pyLower n])
      []
  if namespace_parts.isEmpty then ("")
  else joinDot namespace_parts


/-! Helper lemmas about the dictionary model and the folds of the engine. -/

theorem bool_eq_false {c : Bool} (h : ¬ c = true) : c = false := by
  cases c
  · rfl
  · exact absurd rfl h

theorem if_bool_true {α : Sort _} {c : Bool} {a b : α} (h : c = true) :
    (if c = true then a else b) = a := by
  rw [h]
  exact if_pos rfl

theorem if_bool_false {α : Sort _} {c : Bool} {a b : α} (h : c = false) :
    (if c = true then a else b) = b := by
  rw [h]
  exact if_neg Bool.false_ne_true

theorem str_beq_false {a b : String} (h : ¬ a = b) : (a == b) = false :=
  beq_eq_false_iff_ne.mpr h

theorem dictGet_map_update_ne {α : Type} (d : List (String × α)) (k f : String) (v : α)
    (h : f ≠ k) :
    dictGet (d.map (fun p => if p.1 == k then (k, v) else p)) f = dictGet d f := by
  induction d with
  | nil => rfl
  | cons p rest ih =>
    simp only [List.map_cons, dictGet]
    by_cases hp : p.1 = k
    · rw [if_bool_true (beq_iff_eq.mpr hp)]
      simp only [dictGet]
      rw [if_bool_false (str_beq_false (fun hh => h hh.symm)),
        if_bool_false (str_beq_false (fun hh => h (hp ▸ hh).symm)), ih]
    · rw [if_bool_false (str_beq_false hp)]
      by_cases hpf : p.1 = f
      · rw [if_bool_true (beq_iff_eq.mpr hpf), if_bool_true (beq_iff_eq.mpr hpf)]
      · rw [if_bool_false (str_beq_false hpf), if_bool_false (str_beq_false hpf), ih]

theorem dictGet_append_single_ne {α : Type} (d : List (String × α)) (k f : String) (v : α)
    (h : f ≠ k) : dictGet (d ++ [(k, v)]) f = dictGet d f := by
  induction d with
  | nil =>
    simp only [List.nil_append, dictGet]
    rw [if_bool_false (str_beq_false (fun hh => h hh.symm))]
  | cons p rest ih =>
    simp only [List.cons_append, List.append_eq, dictGet]
    rw [ih]

theorem dictGet_dictInsert_ne {α : Type} (d : List (String × α)) (k f : String) (v : α)
    (h : f ≠ k) : dictGet (dictInsert d k v) f = dictGet d f := by
  unfold dictInsert
  split
  · exact dictGet_map_update_ne d k f v h
  · exact dictGet_append_single_ne d k f v h

theorem dictGet_map_update_self {α : Type} (d : List (String × α)) (k : String) (v : α)
    (hmem : d.any (fun p => p.1 == k) = true) :
    dictGet (d.map (fun p => if p.1 == k then (k, v) else p)) k = some v := by
  induction d with
  | nil => simp at hmem
  | cons p rest ih =>
    simp only [List.map_cons, dictGet]
    by_cases hp : p.1 = k
    · rw [if_bool_true (beq_iff_eq.mpr hp)]
      simp only [dictGet]
      rw [if_bool_true (beq_iff_eq.mpr rfl)]
    · rw [if_bool_false (str_beq_false hp), if_bool_false (str_beq_false hp)]
      apply ih
      simp only [List.any_cons] at hmem
      rcases Bool.or_eq_true_iff.mp hmem with h1 | h2
      · exact absurd (beq_iff_eq.mp h1) hp
      · exact h2

theorem dictGet_append_single_self {α : Type} (d : List (String × α)) (k : String) (v : α)
    (hmem : d.any (fun p => p.1 == k) = false) :
    dictGet (d ++ [(k, v)]) k = some v := by
  induction d with
  | nil =>
    simp only [List.nil_append, dictGet]
    rw [if_bool_true (beq_iff_eq.mpr rfl)]
  | cons p rest ih =>
    simp only [List.any_cons, Bool.or_eq_false_iff] at hmem
    simp only [List.cons_append, List.append_eq, dictGet]
    rw [if_bool_false hmem.1]
    exact ih hmem.2

theorem dictGet_dictInsert_self {α : Type} (d : List (String × α)) (k : String) (v : α) :
    dictGet (dictInsert d k v) k = some v := by
  unfold dictInsert
  split
  · exact dictGet_map_update_self d k v (by assumption)
  · next hmem => exact dictGet_append_single_self d k v (bool_eq_false hmem)

theorem processLevelAnns_get_nowrite (chain : List ClassLevel) (anns : List String)
    (f : String)
    (h : startsWithUnderscoreName f = true ∨ getattrOr chain f = none ∨ f ∉ anns) :
    ∀ acc, dictGet (processLevelAnns chain anns acc) f = dictGet acc f := by
  induction anns with
  | nil => intro acc; rfl
  | cons nm rest ih =>
    intro acc
    have hrest : startsWithUnderscoreName f = true ∨ getattrOr chain f = none ∨ f ∉ rest := by
      rcases h with h1 | h2 | h3
      · exact Or.inl h1
      · exact Or.inr (Or.inl h2)
      · exact Or.inr (Or.inr (fun hm => h3 (List.mem_cons_of_mem nm hm)))
    simp only [processLevelAnns]
    rw [ih hrest]
    by_cases hnm : startsWithUnderscoreName nm = true
    · rw [if_bool_true hnm]
    · rw [if_bool_false (bool_eq_false hnm)]
      cases hG : getattrOr chain nm with
      | none => rfl
      | some v =>
        by_cases hnf : nm = f
        · subst hnf
          rcases h with h1 | h2 | h3
          · exact absurd h1 hnm
          · rw [h2] at hG
            exact Option.noConfusion hG
          · exact absurd (List.mem_cons_self nm rest) h3
        · exact dictGet_dictInsert_ne acc nm f v (fun hh => hnf hh.symm)

theorem processLevelAnns_get_write (chain : List ClassLevel) (anns : List String)
    (f : String) (v : Obj) (hf : f ∈ anns) (hu : startsWithUnderscoreName f = false)
    (hv : getattrOr chain f = some v) :
    ∀ acc, dictGet (processLevelAnns chain anns acc) f = some v := by
  induction anns with
  | nil => cases hf
  | cons nm rest ih =>
    intro acc
    by_cases hr : f ∈ rest
    · simp only [processLevelAnns]
      exact ih hr _
    · have hnm : nm = f := by
        rcases List.mem_cons.mp hf with h | h
        · exact h.symm
        · exact absurd h hr
      subst hnm
      simp only [processLevelAnns]
      rw [processLevelAnns_get_nowrite chain rest nm (Or.inr (Or.inr hr))]
      rw [if_bool_false hu, hv]
      exact dictGet_dictInsert_self acc nm v

theorem mergeSectionData_nomatch (sig : List Param) (data : List (String × Obj))
    (h : ∀ kv ∈ data, sig.any (fun q => q.name == kv.1) = false) :
    ∀ m, mergeSectionData sig data m = m := by
  induction data with
  | nil => intro m; rfl
  | cons kv rest ih =>
    intro m
    simp only [mergeSectionData]
    rw [if_bool_false (h kv (List.mem_cons_self kv rest))]
    exact ih (fun kv2 hm => h kv2 (List.mem_cons_of_mem kv hm)) m

theorem combined_entry_step_not_owned (sig : List Param) (fnId : Nat) (app_cfg : Obj)
    (acc : Except String (List (String × Obj))) (e : TunableEntry)
    (h : (e.fn == fnId) = false) : combined_entry_step sig fnId app_cfg acc e = acc := by
  cases acc with
  | error err => rfl
  | ok m =>
    simp only [combined_entry_step]
    rw [if_bool_false h]

theorem combined_params_visits_owned (sig : List Param) (fnId : Nat) (app_cfg : Obj) :
    ∀ (entries : List TunableEntry) (acc : Except String (List (String × Obj))),
      entries.foldl (combined_entry_step sig fnId app_cfg) acc
        = (entries.filter (fun e => e.fn == fnId)).foldl
            (combined_entry_step sig fnId app_cfg) acc := by
  intro entries
  induction entries with
  | nil => intro acc; rfl
  | cons e rest ih =>
    intro acc
    cases he : (e.fn == fnId) with
    | true =>
      simp only [List.foldl_cons, List.filter_cons, he, if_true, List.foldl_cons]
      exact ih _
    | false =>
      simp only [List.foldl_cons, List.filter_cons, he]
      rw [combined_entry_step_not_owned sig fnId app_cfg acc e he]
      rw [if_neg Bool.false_ne_true]
      exact ih acc

theorem combined_entry_step_nothing (sig : List Param) (fnId : Nat) (app_cfg : Obj)
    (m : List (String × Obj)) (e : TunableEntry)
    (h : sectionContributesNothing sig app_cfg e.ns = true) :
    combined_entry_step sig fnId app_cfg (Except.ok m) e = Except.ok m := by
  simp only [combined_entry_step]
  unfold sectionContributesNothing at h
  cases he : (e.fn == fnId) with
  | false => rw [if_neg Bool.false_ne_true]
  | true =>
    rw [if_pos rfl]
    cases hres : _resolve_nested_section app_cfg e.ns with
    | none => rfl
    | some sect =>
      rw [hres] at h
      match sect with
      | Obj.atom i s => exact absurd h (by simp)
      | Obj.node d =>
        simp only [objItems]
        rw [mergeSectionData_nomatch sig d ?_ m]
        intro kv hkv
        have h2 := (List.all_eq_true.mp h) kv hkv
        cases hq : sig.any (fun q => q.name == kv.1) with
        | false => rfl
        | true =>
          rw [hq] at h2
          exact Bool.noConfusion h2

theorem combined_params_nothing (sig : List Param) (fnId : Nat) (app_cfg : Obj)
    (entries : List TunableEntry)
    (h : ∀ e ∈ entries, e.fn = fnId → sectionContributesNothing sig app_cfg e.ns = true) :
    combined_params sig fnId entries app_cfg = Except.ok [] := by
  unfold combined_params
  have main : ∀ (es : List TunableEntry),
      (∀ e ∈ es, e.fn = fnId → sectionContributesNothing sig app_cfg e.ns = true) →
      ∀ m, es.foldl (combined_entry_step sig fnId app_cfg) (Except.ok m) = Except.ok m := by
    intro es
    induction es with
    | nil => intro _ m; rfl
    | cons e rest ih =>
      intro hh m
      simp only [List.foldl_cons]
      by_cases he : e.fn = fnId
      · rw [combined_entry_step_nothing sig fnId app_cfg m e
          (hh e (List.mem_cons_self e rest) he)]
        exact ih (fun e2 hm => hh e2 (List.mem_cons_of_mem e hm)) m
      · rw [combined_entry_step_not_owned sig fnId app_cfg (Except.ok m) e
          (beq_eq_false_iff_ne.mpr he)]
        exact ih (fun e2 hm => hh e2 (List.mem_cons_of_mem e hm)) m
  exact main entries h []

theorem infer_keeps_found (fn_globals : List GlobalVal) (d : Obj) (ns : String) :
    fn_globals.foldl
      (fun found g =>
        match found with
        | some ns2 => some ns2
        | none =>
          match g with
          | GlobalVal.paramClass c => if classMatches d c then some c.ns else none
          | GlobalVal.otherVal => none)
      (some ns) = some ns := by
  induction fn_globals with
  | nil => rfl
  | cons g rest ih => simp only [List.foldl_cons]; exact ih

theorem infer_eq_matchingClasses (fn_globals : List GlobalVal) (d : Obj)
    (h : objHasSelf d = false) :
    _infer_namespace_from_class_attribute (some d) fn_globals
      = (matchingClasses fn_globals d).head?.map (fun c => c.ns) := by
  simp only [_infer_namespace_from_class_attribute]
  rw [if_bool_false h]
  induction fn_globals with
  | nil => rfl
  | cons g rest ih =>
    match g with
    | GlobalVal.otherVal =>
      simp only [List.foldl_cons, matchingClasses, List.filterMap_cons]
      exact ih
    | GlobalVal.paramClass c =>
      cases hc : classMatches d c with
      | true =>
        simp only [List.foldl_cons, matchingClasses, List.filterMap_cons]
        rw [if_bool_true hc, if_bool_true hc]
        rw [infer_keeps_found rest d c.ns]
        rfl
      | false =>
        simp only [List.foldl_cons, matchingClasses, List.filterMap_cons]
        rw [if_bool_false hc, if_bool_false hc]
        exact ih

theorem mergeKw_nil_right (a : List (String × Obj)) : mergeKw a [] = Except.ok a := by
  unfold mergeKw
  have hA : (a.any fun p => (([] : List (String × Obj)).any fun q => q.1 == p.1)) = false := by
    apply List.any_eq_false.mpr
    intro x hx
    exact Bool.false_ne_true
  rw [if_bool_false hA, List.append_nil]

theorem combined_params_no_error (sig : List Param) (fnId : Nat) (A : Obj)
    (entries : List TunableEntry)
    (hsafe : ∀ e ∈ entries, e.fn = fnId → sectionResolvesSafely A e.ns = true) :
    ∃ m2, combined_params sig fnId entries A = Except.ok m2 := by
  unfold combined_params
  have main : ∀ (es : List TunableEntry),
      (∀ e ∈ es, e.fn = fnId → sectionResolvesSafely A e.ns = true) →
      ∀ m, ∃ m2, es.foldl (combined_entry_step sig fnId A) (Except.ok m) = Except.ok m2 := by
    intro es
    induction es with
    | nil => exact fun _ m => ⟨m, rfl⟩
    | cons e rest ih =>
      intro h m
      have hstep : ∃ m1, combined_entry_step sig fnId A (Except.ok m) e = Except.ok m1 := by
        simp only [combined_entry_step]
        cases he : (e.fn == fnId) with
        | false =>
          rw [if_neg Bool.false_ne_true]
          exact ⟨m, rfl⟩
        | true =>
          rw [if_pos rfl]
          have hs := h e (List.mem_cons_self e rest) (beq_iff_eq.mp he)
          unfold sectionResolvesSafely at hs
          cases hres : _resolve_nested_section A e.ns with
          | none => exact ⟨m, rfl⟩
          | some sect =>
            rw [hres] at hs
            match sect with
            | Obj.atom i s => exact absurd hs (by simp)
            | Obj.node dta => exact ⟨mergeSectionData sig dta m, rfl⟩
      obtain ⟨m1, hm1⟩ := hstep
      simp only [List.foldl_cons]
      rw [hm1]
      exact ih (fun e2 he2 => h e2 (List.mem_cons_of_mem e he2)) m1
  exact main entries hsafe []

/-! The claims. -/

/-- C1: the claim asserts that an explicit call-site keyword argument for x
together with a configuration value for x makes the call succeed with the
caller's value.  On the code, both the explicit-override branch (lines 182-186)
and the active-configuration branch (lines 212-213) evaluate
fn(*args, **injected, **kwargs) with x present in both mappings, which raises
TypeError (got multiple values for keyword argument) instead of invoking the
function: here a function with one parameter x defaulting to object 1, called
with explicit x = object 5 while the override (first conjunct) or the active
configuration's registered namespace m (second conjunct) supplies x = object 9,
errors in both branches. -/
theorem c1_explicit_kwarg_with_config_raises :
    wrapper [⟨("x"), PKind.posOrKw, some (Obj.atom 1 false)⟩] none 7 []
        (some (Obj.node [(("x"), Obj.atom 9 false)])) none [] [(("x"), Obj.atom 5 false)]
      = Except.error ("TypeError: got multiple values for keyword argument")
  ∧ wrapper [⟨("x"), PKind.posOrKw, some (Obj.atom 1 false)⟩] none 7
        [⟨7, ("m"), [(("x"), some (Obj.atom 1 false))], []⟩] none
        (some (Obj.node [(("m"), Obj.node [(("x"), Obj.atom 9 false)])]))
        [] [(("x"), Obj.atom 5 false)]
      = Except.error ("TypeError: got multiple values for keyword argument") :=
  ⟨rfl, rfl⟩

/-- C2: a function (identity 7) whose two defaulted parameters alpha and beta are
identity-matched to two different parameter classes (namespaces model and train)
is registered as two distinct entries, one per namespace, both owned by the
function; calling it under an active configuration populating both namespaces
merges the values of both into the keyword arguments; and the call-time
collection visits exactly the registered entries owned by the function, for any
registry contents.  The registry itself is modelled from the spec (registry.py is
not under src/): an append-only list of entries enumerated in registration
order. -/
theorem c2_multi_namespace_registration_and_merge (v1 v2 : Obj) (apps : List String) :
    tunableRegister [] Mode.includeMode [] none apps 7
        [⟨("alpha"), PKind.posOrKw, some (Obj.atom 101 false)⟩,
         ⟨("beta"), PKind.posOrKw, some (Obj.atom 102 false)⟩]
        [GlobalVal.paramClass ⟨("model"), [(("a"), Obj.atom 101 false)]⟩,
         GlobalVal.paramClass ⟨("train"), [(("b"), Obj.atom 102 false)]⟩]
      = [⟨7, ("model"), [(("alpha"), some (Obj.atom 101 false))], apps⟩,
         ⟨7, ("train"), [(("beta"), some (Obj.atom 102 false))], apps⟩]
  ∧ wrapper [⟨("alpha"), PKind.posOrKw, some (Obj.atom 101 false)⟩,
             ⟨("beta"), PKind.posOrKw, some (Obj.atom 102 false)⟩] none 7
        (tunableRegister [] Mode.includeMode [] none apps 7
          [⟨("alpha"), PKind.posOrKw, some (Obj.atom 101 false)⟩,
           ⟨("beta"), PKind.posOrKw, some (Obj.atom 102 false)⟩]
          [GlobalVal.paramClass ⟨("model"), [(("a"), Obj.atom 101 false)]⟩,
           GlobalVal.paramClass ⟨("train"), [(("b"), Obj.atom 102 false)]⟩])
        none
        (some (Obj.node [(("model"), Obj.node [(("alpha"), v1)]),
                         (("train"), Obj.node [(("beta"), v2)])]))
        [] []
      = Except.ok ⟨[], [(("alpha"), v1), (("beta"), v2)]⟩
  ∧ ∀ (sg : List Param) (fnId : Nat) (entries : List TunableEntry) (A : Obj),
      combined_params sg fnId entries A
        = combined_params sg fnId (entries.filter (fun e => e.fn == fnId)) A :=
  ⟨rfl, rfl,
   fun sg fnId entries A => combined_params_visits_owned sg fnId A entries (Except.ok [])⟩

/-- C3: the claim asserts that resolving the empty (root) namespace returns the
configuration object itself.  On the code, "".split(".") yields [""], so
_resolve_nested_section checks hasattr(cfg, "") - false for any configuration
section - and returns None: here a configuration with a model section (and no
empty-string attribute) resolves the root namespace to None, so root-registered
parameters never receive top-level values. -/
theorem c3_empty_namespace_resolves_to_none :
    _resolve_nested_section
        (Obj.node [(("model"), Obj.node [(("x"), Obj.atom 1 false)])]) ("")
      = none :=
  rfl

/-- C4 counterexample: the claim as stated is false on the code.  The default
value object 5 is identity-equal to the stored field default a of a visible
parameter class with namespace model (first conjunct), yet the decorator assigns
the parameter the root namespace (second conjunct), because the default exposes
a __self__ attribute and decorators.py lines 44-46 abort inference before the
scan. -/
theorem c4_counterexample_self_attribute :
    classMatches (Obj.atom 5 true) ⟨("model"), [(("a"), Obj.atom 5 true)]⟩ = true
  ∧ paramNs (some (Obj.atom 5 true))
        [GlobalVal.paramClass ⟨("model"), [(("a"), Obj.atom 5 true)]⟩]
      = ("") :=
  ⟨rfl, rfl⟩

/-- C4 (amended): provided the parameter's default value does not expose a
__self__ attribute (bound methods and descriptors are exempted from inference by
decorators.py lines 44-46), a default identity-equal to a stored field default of
exactly one visible parameter class is assigned that class's computed namespace;
with no identity match, or with a __self__-bearing default, the parameter is
assigned the root (empty) namespace. -/
theorem c4_amended_identity_match_namespace (fn_globals : List GlobalVal) (d : Obj)
    (c : ParamClass) :
    (objHasSelf d = false → matchingClasses fn_globals d = [c] →
      paramNs (some d) fn_globals = c.ns)
  ∧ (objHasSelf d = false → matchingClasses fn_globals d = [] →
      paramNs (some d) fn_globals = (""))
  ∧ (objHasSelf d = true → paramNs (some d) fn_globals = ("")) := by
  refine ⟨fun h hm => ?_, fun h hm => ?_, fun h => ?_⟩
  · unfold paramNs
    rw [infer_eq_matchingClasses fn_globals d h, hm]
    rfl
  · unfold paramNs
    rw [infer_eq_matchingClasses fn_globals d h, hm]
    rfl
  · unfold paramNs
    simp only [_infer_namespace_from_class_attribute]
    rw [if_bool_true h]
    rfl

/-- C4 witness: a default without __self__, identity-matched by exactly one
visible class (namespace model), is assigned namespace model. -/
theorem c4_amended_witness :
    paramNs (some (Obj.atom 3 false))
        [GlobalVal.paramClass ⟨("model"), [(("a"), Obj.atom 3 false)]⟩]
      = ("model") :=
  (c4_amended_identity_match_namespace
    [GlobalVal.paramClass ⟨("model"), [(("a"), Obj.atom 3 false)]⟩]
    (Obj.atom 3 false)
    ⟨("model"), [(("a"), Obj.atom 3 false)]⟩).1 rfl rfl

/-- C5: for a parameter class whose chain below the root marker, listed most
general to most specific, is [A, B, C] with neither B nor C named like the root
marker, the computed namespace is the lower-cased names joined by dots in
general-to-specific order, omitting A exactly when A is the designated root
(its name is "main" case-insensitively): "b.c" in that case, else "a.b.c".
The argument list is in MRO order, most specific first, as
_calculate_namespace_from_class receives it. -/
theorem c5_namespace_from_chain (a b c : String)
    (hb : (pyLower b == ("main")) = false) (hc : (pyLower c == ("main")) = false) :
    _calculate_namespace_from_class [c, b, a]
      = if (pyLower a == ("main")) = true then pyLower b ++ (".") ++ pyLower c
        else pyLower a ++ (".") ++ (pyLower b ++ (".") ++ pyLower c) := by
  simp only [_calculate_namespace_from_class]
  rw [show ([c, b, a].reverse) = [a, b, c] from rfl]
  simp only [List.foldl_cons, List.foldl_nil]
  cases ha : (pyLower a == ("main")) with
  | true =>
    rw [hb, hc]
    rfl
  | false =>
    rw [hb, hc]
    rfl

/-- C5 witness: the chain Main - Model - Preprocess with Main the designated
root computes the namespace "model.preprocess". -/
theorem c5_witness :
    _calculate_namespace_from_class [("Preprocess"), ("Model"), ("Main")]
      = ("model.preprocess") := by
  rw [c5_namespace_from_chain ("Main") ("Model") ("Preprocess") rfl rfl]
  rfl

/-- C6 counterexample: the claim as stated is false on the code.  In the chain
where the most specific level B redeclares field f with class-level value None
(second conjunct) over the more general level A declaring f as object 5, the
collected field set maps f to A's value, the more general declaration (first
conjunct), because parameters.py lines 84-86 skip any field whose class-level
value resolves to None. -/
theorem c6_counterexample_none_redeclaration :
    dictGet (_collect_fields_from_class
        [⟨("B"), [("f")], [(("f"), none)]⟩,
         ⟨("A"), [("f")], [(("f"), some (Obj.atom 5 false))]⟩]) ("f")
      = some (Obj.atom 5 false)
  ∧ dictGet (⟨("B"), [("f")], [(("f"), none)]⟩ : ClassLevel).vals ("f") = some none :=
  ⟨rfl, rfl⟩

/-- C6 (amended): for a field name declared at more than one level of the chain,
the collected field set maps the name to the declaration at the most specific
ancestor provided that declaration's class-level value does not resolve to None
(a None-valued redeclaration is skipped by collection, leaving the more general
value).  Here lvl is the most specific level annotating f (no level in pre, the
part of the chain more specific than lvl, annotates it), f is not an underscore
name, and lvl's class-level value for f resolves to v. -/
theorem c6_amended_most_specific_wins (pre : List ClassLevel) (lvl : ClassLevel)
    (post : List ClassLevel) (f : String) (v : Obj)
    (hpre : ∀ l ∈ pre, f ∉ l.anns)
    (hf : f ∈ lvl.anns)
    (hu : startsWithUnderscoreName f = false)
    (hv : getattrOr (lvl :: post) f = some v) :
    dictGet (_collect_fields_from_class (pre ++ lvl :: post)) f = some v := by
  induction pre with
  | nil =>
    simp only [List.nil_append, _collect_fields_from_class]
    exact processLevelAnns_get_write (lvl :: post) lvl.anns f v hf hu hv _
  | cons p rest ih =>
    have step : _collect_fields_from_class ((p :: rest) ++ lvl :: post)
        = processLevelAnns (p :: (rest ++ lvl :: post)) p.anns
            (_collect_fields_from_class (rest ++ lvl :: post)) := rfl
    rw [step]
    rw [processLevelAnns_get_nowrite (p :: (rest ++ lvl :: post)) p.anns f
      (Or.inr (Or.inr (hpre p (List.mem_cons_self p rest))))]
    exact ih (fun l hl => hpre l (List.mem_cons_of_mem p hl))

/-- C6 witness: level C redeclares f as object 9 over level A's object 5, and
the collected field set maps f to object 9, the most specific declaration. -/
theorem c6_amended_witness :
    dictGet (_collect_fields_from_class
        [⟨("C"), [("f")], [(("f"), some (Obj.atom 9 false))]⟩,
         ⟨("A"), [("f")], [(("f"), some (Obj.atom 5 false))]⟩]) ("f")
      = some (Obj.atom 9 false) :=
  c6_amended_most_specific_wins []
    ⟨("C"), [("f")], [(("f"), some (Obj.atom 9 false))]⟩
    [⟨("A"), [("f")], [(("f"), some (Obj.atom 5 false))]⟩]
    ("f") (Obj.atom 9 false)
    (fun l hl => absurd hl (List.not_mem_nil l))
    (by decide) rfl rfl

/-- C7: with no explicit override, when every namespace registered for the
function either is absent from the active configuration or resolves to a section
none of whose keys names a parameter of the function, the call neither raises
nor injects anything: the original function is invoked with exactly the
caller-supplied arguments, so its own declared defaults apply.  This covers both
the multi-namespace mode (nsOpt = none, hypothesis h over the function's
registered entries) and the explicit-namespace mode (hypothesis h2). -/
theorem c7_graceful_resolution (sig : List Param) (fnId : Nat)
    (entries : List TunableEntry) (A : Obj) (args : List Obj)
    (kwargs : List (String × Obj)) (nsOpt : Option String) :
    ((∀ e ∈ entries, e.fn = fnId → sectionContributesNothing sig A e.ns = true) →
      (∀ ns, nsOpt = some ns → sectionContributesNothing sig A ns = true) →
      wrapper sig nsOpt fnId entries none (some A) args kwargs
        = Except.ok ⟨args, kwargs⟩)
  ∧ ((∀ e ∈ entries, e.fn = fnId → sectionResolvesSafely A e.ns = true) →
      ∃ kw, wrapper sig none fnId entries none (some A) args []
        = Except.ok ⟨args, kw⟩) := by
  constructor
  · intro h h2
    cases nsOpt with
    | none =>
      simp only [wrapper]
      rw [combined_params_nothing sig fnId A entries h]
      rfl
    | some ns =>
      have hsingle : single_namespace_params sig A ns = Except.ok [] := by
        have hc := h2 ns rfl
        unfold sectionContributesNothing at hc
        unfold single_namespace_params
        cases hres : _resolve_nested_section A ns with
        | none => rfl
        | some sect =>
          rw [hres] at hc
          match sect with
          | Obj.atom i s => exact absurd hc (by simp)
          | Obj.node dta =>
            simp only [objItems]
            rw [mergeSectionData_nomatch sig dta ?_ []]
            intro kv hkv
            have hx := (List.all_eq_true.mp hc) kv hkv
            cases hq : sig.any (fun q => q.name == kv.1) with
            | false => rfl
            | true =>
              rw [hq] at hx
              exact Bool.noConfusion hx
      simp only [wrapper]
      rw [hsingle]
      rfl
  · intro hsafe
    obtain ⟨m2, hm⟩ := combined_params_no_error sig fnId A entries hsafe
    simp only [wrapper]
    rw [hm]
    cases m2 with
    | nil => exact ⟨[], rfl⟩
    | cons kv rest =>
      refine ⟨kv :: rest, ?_⟩
      show (match mergeKw (kv :: rest) [] with
            | Except.error err => (Except.error err : Except String Call)
            | Except.ok kw => Except.ok ⟨args, kw⟩)
          = Except.ok ⟨args, kv :: rest⟩
      rw [mergeKw_nil_right (kv :: rest)]

/-- C7 witness: a function with one registered namespace missing from the active
configuration is called with exactly the caller's positional and keyword
arguments, with no error. -/
theorem c7_witness :
    wrapper [⟨("x"), PKind.posOrKw, some (Obj.atom 1 false)⟩] none 7
        [⟨7, ("missing"), [(("x"), some (Obj.atom 1 false))], []⟩] none
        (some (Obj.node [(("other"), Obj.node [(("y"), Obj.atom 2 false)])]))
        [Obj.atom 0 false] [(("k"), Obj.atom 3 false)]
      = Except.ok ⟨[Obj.atom 0 false], [(("k"), Obj.atom 3 false)]⟩ :=
  (c7_graceful_resolution _ _ _ _ _ _ _).1 (by decide) (fun ns h => Option.noConfusion h)

/-- C8: under a non-empty explicit include list, a parameter of the decorated
function is selected exactly when its name is in the include list and it is not
variadic - independently of the mode, the exclude list and which parameters
declare defaults. -/
theorem c8_include_list_selection (includeList excludeList : List String) (mode : Mode)
    (p : Param) (hne : includeList ≠ []) :
    tunableSelects includeList mode excludeList p = true
      ↔ (p.name ∈ includeList ∧ isVariadic p.kind = false) := by
  have hE : includeList.isEmpty = false := by
    cases includeList with
    | nil => exact absurd rfl hne
    | cons x xs => rfl
  unfold tunableSelects tunableSelected
  rw [hE]
  show (!(isVariadic p.kind) && includeList.contains p.name) = true ↔ _
  rw [Bool.and_eq_true]
  constructor
  · rintro ⟨h1, h2⟩
    refine ⟨by simpa using h2, ?_⟩
    cases hk : isVariadic p.kind with
    | false => rfl
    | true =>
      rw [hk] at h1
      exact Bool.noConfusion h1
  · rintro ⟨h1, h2⟩
    refine ⟨?_, by simpa using h1⟩
    rw [h2]
    rfl

/-- C8 witness: with include list [x, y], the parameter x is selected even
though it declares no default. -/
theorem c8_witness :
    tunableSelects [("x"), ("y")] Mode.includeMode [] ⟨("x"), PKind.posOrKw, none⟩ = true :=
  (c8_include_list_selection [("x"), ("y")] [] Mode.includeMode
    ⟨("x"), PKind.posOrKw, none⟩ (by simp)).mpr ⟨by simp, rfl⟩

/-- C9: field collection skips any annotated field whose class-level value
resolves to None (parameters.py lines 84-86), so a field redeclared at the most
specific level with value None contributes nothing there: the collected binding
for the name is exactly the one collected from the rest of the chain, i.e. the
more general declaration survives and no None default ever enters the collected
set (whose values are non-None by construction). -/
theorem c9_none_valued_fields_omitted (lvl : ClassLevel) (rest : List ClassLevel)
    (f : String) (hf : f ∈ lvl.anns) (hnone : getattrOr (lvl :: rest) f = none) :
    dictGet (_collect_fields_from_class (lvl :: rest)) f
      = dictGet (_collect_fields_from_class rest) f := by
  simp only [_collect_fields_from_class]
  exact processLevelAnns_get_nowrite (lvl :: rest) lvl.anns f (Or.inr (Or.inl hnone)) _

/-- C9 witness: B redeclares f as None over A's object 5; the collected value of
f for the chain B - A equals the one collected for A alone (object 5). -/
theorem c9_witness :
    dictGet (_collect_fields_from_class
        [⟨("B"), [("f")], [(("f"), none)]⟩,
         ⟨("A"), [("f")], [(("f"), some (Obj.atom 5 false))]⟩]) ("f")
      = dictGet (_collect_fields_from_class
          [⟨("A"), [("f")], [(("f"), some (Obj.atom 5 false))]⟩]) ("f") :=
  c9_none_valued_fields_omitted
    ⟨("B"), [("f")], [(("f"), none)]⟩
    [⟨("A"), [("f")], [(("f"), some (Obj.atom 5 false))]⟩]
    ("f") (by decide) rfl

/-- C10: with an explicit cfg override the wrapper's result is independent of
the registered entries, of the decorator's namespace argument, of the function
identity used for registry lookups and of the active context (first conjunct:
any two instantiations agree), and equals the override branch, which filters the
override's keys against all parameter names of the signature, not only the
selected tunable ones (second conjunct; see cfg_override_branch).  Third
conjunct: a parameter that declares no default and was never registered (empty
registry) still receives the override's value for its name. -/
theorem c10_override_filters_signature_ignores_context (sig : List Param)
    (nsOpt nsOpt2 : Option String) (fnId fnId2 : Nat)
    (entries entries2 : List TunableEntry) (c : Obj) (active active2 : Option Obj)
    (args : List Obj) (kwargs : List (String × Obj)) (v : Obj) :
    wrapper sig nsOpt fnId entries (some c) active args kwargs
      = wrapper sig nsOpt2 fnId2 entries2 (some c) active2 args kwargs
  ∧ wrapper sig nsOpt fnId entries (some c) active args kwargs
      = cfg_override_branch sig c args kwargs
  ∧ wrapper [⟨("path"), PKind.posOrKw, none⟩] none 7 []
        (some (Obj.node [(("path"), v)])) none [] []
      = Except.ok ⟨[], [(("path"), v)]⟩ :=
  ⟨rfl, rfl, rfl⟩

end TunableX
